import Mathlib

/-!
# NBA Wins Pool — auction frontend, formalized

Shallow embedding of the auction-draft client logic of the repository:
* `src/frontend/src/views/AuctionOverview.vue` (first component copy,
  lines 1–2200): computed bid quantities, validation gates, watchers,
  mount sequence, timers, and the administrative actions;
* the auction events composable (`useAuctionEvents`): SSE message handler
  and history backfill.

JavaScript numbers that always hold finite values are modelled as `ℚ`
(with `Math.floor` as `Int.floor`); the one place where `NaN`/`Infinity`
and loose typing matter (`min_bid_increment`) is modelled explicitly.
Identifiers are `String`s as in the source.
-/

namespace NbaWinsPool

/-- A JavaScript number: a finite rational, `NaN`, or an infinity. -/
inductive JsNum where
  | fin (q : ℚ)
  | nan
  | posInf
  | negInf
deriving DecidableEq, Repr

/-- A loosely-typed value as it can reach `Number(v)` in the frontend:
absent (`undefined`), an actual number, a numeric string, or a
non-numeric string. -/
inductive JsVal where
  | undef
  | num (n : JsNum)
  | strNum (q : ℚ)
  | strOther
deriving DecidableEq, Repr

/-- JavaScript `Number(v)` coercion on the values above: `undefined` and
non-numeric strings give `NaN`, numeric strings parse to their value. -/
def JsVal.toNumber : JsVal → JsNum
  | .undef => .nan
  | .num n => n
  | .strNum q => .fin q
  | .strOther => .nan

/-- `Number.isFinite`. -/
def JsNum.isFinite : JsNum → Bool
  | .fin _ => true
  | _ => false

/-- `minIncrement` computed property (AuctionOverview.vue lines 506–511):
`n = Math.floor(Number(v))`, then `Number.isFinite(n) && n >= 1 ? n : 1`.
`Math.floor` maps `NaN`/`±∞` to themselves and `Number.isFinite` rejects
them, so only a finite `Number(v)` can produce a non-fallback result. -/
def minIncrementJs (v : JsVal) : ℤ :=
  match v.toNumber with
  | .fin q => if 1 ≤ ⌊q⌋ then ⌊q⌋ else 1
  | _ => 1

/-- Lot lifecycle status; `opened` models the source's `'open'`
(a Lean keyword). -/
inductive LotStatus where
  | ready
  | opened
  | closed
deriving DecidableEq, Repr

/-- Auction-level status. -/
inductive AuctionStatus where
  | notStarted
  | active
  | completed
deriving DecidableEq, Repr

/-- View mode toggle of the overview page. -/
inductive ViewMode where
  | spectator
  | participant
deriving DecidableEq, Repr

/-- The `team` object attached to a lot. -/
structure TeamInfo where
  id : Option String
  logo_url : Option String
deriving DecidableEq, Repr

/-- The winning bid carried by a lot (`amount` is `Number()`-coerced in
the frontend, held here as a finite rational). -/
structure WinningBid where
  amount : ℚ
deriving DecidableEq, Repr

/-- A lot of the auction overview payload. -/
structure Lot where
  id : String
  status : LotStatus
  team : Option TeamInfo
  winning_bid : Option WinningBid
deriving DecidableEq, Repr

/-- A participant of the auction overview payload; `budget` is the
`parseFloat` of the serialized budget string. -/
structure Participant where
  id : String
  budget : ℚ
  lots_won : List String
deriving DecidableEq, Repr

/-- The `/overview` payload held in `auctionOverview.value`. -/
structure Overview where
  status : AuctionStatus
  min_bid_increment : JsVal
  max_lots_per_participant : ℕ
  lots : List Lot
  current_lot : Option Lot
  participants : List Participant
deriving DecidableEq, Repr

/-- The reactive state of the `AuctionOverview` component that the
embedded computations read and write. -/
structure ClientState where
  overview : Option Overview
  viewMode : ViewMode
  selectedParticipantId : Option String
  bidAmount : Option ℚ
  selectedTeamForNomination : Option String
  nominationParticipantId : Option String
  nominationBidAmount : Option ℚ
  currentTime : ℤ
  titleIndex : ℕ
deriving DecidableEq, Repr

/-- `participants` computed: `auctionOverview.value?.participants ?? []`. -/
def participants (s : ClientState) : List Participant :=
  match s.overview with
  | some o => o.participants
  | none => []

/-- The lots of the overview payload (`auctionOverview.value?.lots ?? []`). -/
def lotsOf (s : ClientState) : List Lot :=
  match s.overview with
  | some o => o.lots
  | none => []

/-- `currentLot` computed: `auctionOverview.value?.current_lot ?? null`. -/
def currentLot (s : ClientState) : Option Lot :=
  match s.overview with
  | some o => o.current_lot
  | none => none

/-- `auctionOverview.value?.status`. -/
def auctionStatus (s : ClientState) : Option AuctionStatus :=
  match s.overview with
  | some o => some o.status
  | none => none

/-- `minIncrement` computed over the component state: the raw
`min_bid_increment` field is `undefined` when no overview is loaded. -/
def minIncrement (s : ClientState) : ℤ :=
  minIncrementJs (match s.overview with
    | some o => o.min_bid_increment
    | none => JsVal.undef)

/-- `nextMinBid` computed (lines 512–516):
`curr = Number(currentLot?.winning_bid?.amount ?? 0)`;
`curr > 0 ? Math.floor(curr + minIncrement) : minIncrement`. -/
def nextMinBid (s : ClientState) : ℤ :=
  let curr : ℚ := match (currentLot s).bind Lot.winning_bid with
    | some wb => wb.amount
    | none => 0
  if 0 < curr then ⌊curr + (minIncrement s : ℚ)⌋ else minIncrement s

/-- `requiredTeams` computed: `max_lots_per_participant ?? 0`. -/
def requiredTeams (s : ClientState) : ℕ :=
  match s.overview with
  | some o => o.max_lots_per_participant
  | none => 0

/-- `selectedParticipant` computed: first participant whose id matches
the selected id (`null` when none matches). -/
def selectedParticipant (s : ClientState) : Option Participant :=
  (participants s).find? (fun p => s.selectedParticipantId = some p.id)

/-- `remainingSlots` of a participant summary:
`Math.max(requiredTeams - lots.length, 0)` (ℕ subtraction truncates). -/
def remainingSlots (s : ClientState) (p : Participant) : ℕ :=
  requiredTeams s - p.lots_won.length

/-- `draftedTeams` computed: `selectedParticipant?.lots_won.length ?? 0`. -/
def draftedTeams (s : ClientState) : ℕ :=
  match selectedParticipant s with
  | some p => p.lots_won.length
  | none => 0

/-- `remainingToDraftAfterWin` computed (lines 646–648):
`Math.max(requiredTeams - draftedTeams - 1, 0)`. -/
def remainingToDraftAfterWin (s : ClientState) : ℤ :=
  max ((requiredTeams s : ℤ) - (draftedTeams s : ℤ) - 1) 0

/-- `remainingBudget` computed: selected participant's parsed budget, 0
when nobody is selected. -/
def remainingBudget (s : ClientState) : ℚ :=
  match selectedParticipant s with
  | some p => p.budget
  | none => 0

/-- `smartMaxBid` computed (lines 652–658):
`budget = Math.floor(Number(remainingBudget) || 0)`;
`reserve = Math.max(0, Number(remainingToDraftAfterWin) || 0) * minIncrement`;
`cap = Math.max(0, budget - reserve)`; the final `Math.floor(cap)` is the
identity because `cap` is already an integer. -/
def smartMaxBid (s : ClientState) : ℤ :=
  let budget : ℤ := ⌊remainingBudget s⌋
  let reserve : ℤ := max 0 (remainingToDraftAfterWin s) * minIncrement s
  max 0 (budget - reserve)

/-- C1: for every participant with budget `b` and `w` lots won, and
every auction with `max_lots_per_participant = m ≥ 1` and positive
integer `min_bid_increment = i`, the computed smart max bid equals
`max(0, floor(b - reserve))` with `reserve = max(m - w - 1, 0) * i`. -/
theorem c1_smart_max_bid (s : ClientState) (o : Overview) (p : Participant) (i : ℤ)
    (ho : s.overview = some o)
    (hp : selectedParticipant s = some p)
    (_hm : 1 ≤ o.max_lots_per_participant)
    (hi : o.min_bid_increment = JsVal.num (JsNum.fin (i : ℚ)))
    (hi1 : 1 ≤ i) :
    smartMaxBid s =
      max 0
        ⌊p.budget -
          ((max ((o.max_lots_per_participant : ℤ) - (p.lots_won.length : ℤ) - 1) 0 * i : ℤ) : ℚ)⌋ := by
  have hinc : minIncrement s = i := by
    simp only [minIncrement, ho, hi, minIncrementJs, JsVal.toNumber]
    rw [Int.floor_intCast]
    simp [hi1]
  have hbud : remainingBudget s = p.budget := by
    simp [remainingBudget, hp]
  have hdr : draftedTeams s = p.lots_won.length := by
    simp [draftedTeams, hp]
  have hreq : requiredTeams s = o.max_lots_per_participant := by
    simp [requiredTeams, ho]
  rw [Int.floor_sub_int]
  simp only [smartMaxBid, remainingToDraftAfterWin, hinc, hbud, hdr, hreq]
  have hmax : max 0 (max ((o.max_lots_per_participant : ℤ) - (p.lots_won.length : ℤ) - 1) 0) =
      max ((o.max_lots_per_participant : ℤ) - (p.lots_won.length : ℤ) - 1) 0 := by
    omega
  rw [hmax, max_comm]

/-- Concrete participant for the C1 witness. -/
def c1ExPart : Participant :=
  { id := "p1", budget := 200, lots_won := [] }

/-- Concrete overview for the C1 witness (mirrors the spec scenario:
budget 200, two slots, increment 1). -/
def c1ExOverview : Overview :=
  { status := .active
    min_bid_increment := .num (.fin 1)
    max_lots_per_participant := 2
    lots := []
    current_lot := none
    participants := [c1ExPart] }

/-- Concrete component state for the C1 witness. -/
def c1ExState : ClientState :=
  { overview := some c1ExOverview
    viewMode := .participant
    selectedParticipantId := some "p1"
    bidAmount := none
    selectedTeamForNomination := none
    nominationParticipantId := none
    nominationBidAmount := none
    currentTime := 0
    titleIndex := 0 }

/-- C1 witness: the theorem applied to the concrete scenario state gives
`smartMaxBid = 199` there. -/
theorem c1_smart_max_bid_witness :
    smartMaxBid c1ExState = 199 := by
  have h := c1_smart_max_bid c1ExState c1ExOverview c1ExPart 1
    rfl (by decide) (by decide) rfl (by decide)
  rw [h]
  norm_num [c1ExPart, c1ExOverview]

/-- `canBid` computed (lines 687–696). The lot-status test is the
source's `String(currentLot.status || '').toLowerCase() !== 'closed'`. -/
def canBid (s : ClientState) : Bool :=
  decide (s.viewMode = ViewMode.participant) &&
  (selectedParticipant s).isSome &&
  (currentLot s).isSome &&
  decide (draftedTeams s < requiredTeams s) &&
  (match currentLot s with
   | some l => decide (l.status ≠ LotStatus.closed)
   | none => false) &&
  decide (nextMinBid s ≤ smartMaxBid s)

/-- `Number.isInteger` on a finite JS number. -/
def isIntegerQ (q : ℚ) : Bool := q.den == 1

/-- `bidIsValid` computed (lines 713–717). -/
def bidIsValid (s : ClientState) : Bool :=
  canBid s &&
  (match s.bidAmount with
   | none => false
   | some q =>
     isIntegerQ q && decide ((nextMinBid s : ℚ) ≤ q) && decide (q ≤ (smartMaxBid s : ℚ)))

/-- The template condition rendering the bidding section (lines
1116–1121): participant mode, a selected participant, and the current
lot's status strictly `'open'`. -/
def bidSectionShown (s : ClientState) : Bool :=
  decide (s.viewMode = ViewMode.participant) &&
  (selectedParticipant s).isSome &&
  (match currentLot s with
   | some l => decide (l.status = LotStatus.opened)
   | none => false)

/-- JS truthiness of the nullable bid amount (`v-if="bidAmount && ..."`):
`null` and `0` are falsy. -/
def truthyAmount : Option ℚ → Bool
  | none => false
  | some q => decide (q ≠ 0)

/-- `onSubmitBid` (lines 940–978) as the amount it POSTs to `/api/bids`,
or `none` when it returns with an error toast. The source floors the
amount; `Number.isInteger` of that floor is always true for a finite
input, so that conjunct of the source check is omitted. -/
def onSubmitBid (s : ClientState) : Option ℤ :=
  match s.bidAmount with
  | none => none
  | some q =>
    if canBid s && (currentLot s).isSome && (selectedParticipant s).isSome then
      let amount : ℤ := ⌊q⌋
      if amount < nextMinBid s || smartMaxBid s < amount then none else some amount
    else none

/-- The full click path of a bid: the submit button exists only under
`bidSectionShown`, inside the `v-else-if="canBid"` branch, itself shown
only when `bidAmount && bidIsValid` (lines 1127, 1192–1199); clicking it
runs `onSubmitBid`. -/
def submitBidViaUI (s : ClientState) : Option ℤ :=
  if bidSectionShown s && canBid s && truthyAmount s.bidAmount && bidIsValid s then
    onSubmitBid s
  else none

/-- Helper: `nextMinBid` when the current lot carries a positive
winning bid. -/
theorem nextMinBid_of_winning (s : ClientState) (lot : Lot) (wb : WinningBid)
    (hl : currentLot s = some lot) (hw : lot.winning_bid = some wb)
    (hpos : 0 < wb.amount) :
    nextMinBid s = ⌊wb.amount + (minIncrement s : ℚ)⌋ := by
  unfold nextMinBid
  rw [hl]
  simp only [Option.bind]
  rw [hw]
  simp [hpos]

/-- Helper: `smartMaxBid` unfolded for a known selected participant. -/
theorem smartMaxBid_formula (s : ClientState) (p : Participant)
    (hp : selectedParticipant s = some p) :
    smartMaxBid s =
      max 0 (⌊p.budget⌋ -
        max 0 (max ((requiredTeams s : ℤ) - (p.lots_won.length : ℤ) - 1) 0) *
          minIncrement s) := by
  unfold smartMaxBid remainingBudget remainingToDraftAfterWin draftedTeams
  rw [hp]

/-- C3: for every current lot, if the lot carries a winning bid whose
amount is a positive integer `a` then the next minimum acceptable bid is
`a + min_bid_increment`, and with no winning bid it is
`min_bid_increment`. -/
theorem c3_next_min_bid (s : ClientState) (lot : Lot)
    (hl : currentLot s = some lot) :
    (lot.winning_bid = none → nextMinBid s = minIncrement s) ∧
    (∀ a : ℤ, 0 < a → lot.winning_bid = some ⟨(a : ℚ)⟩ →
      nextMinBid s = a + minIncrement s) := by
  constructor
  · intro h
    simp [nextMinBid, hl, h]
  · intro a ha hw
    have hcast : (0 : ℚ) < (a : ℚ) := by exact_mod_cast ha
    have hfl : ((a : ℚ) + (minIncrement s : ℚ)) = ((a + minIncrement s : ℤ) : ℚ) := by
      push_cast
      ring
    unfold nextMinBid
    rw [hl]
    simp only [Option.bind]
    rw [hw]
    simp only [hcast, if_true]
    rw [hfl, Int.floor_intCast]

/-- Concrete lot for the C3 witness: an open lot with winning bid 50. -/
def c3ExLot : Lot :=
  { id := "lot1", status := .opened, team := none, winning_bid := some ⟨50⟩ }

/-- Concrete state for the C3 witness. -/
def c3ExState : ClientState :=
  { overview := some { c1ExOverview with current_lot := some c3ExLot }
    viewMode := .participant
    selectedParticipantId := some "p1"
    bidAmount := none
    selectedTeamForNomination := none
    nominationParticipantId := none
    nominationBidAmount := none
    currentTime := 0
    titleIndex := 0 }

/-- C3 witness: with a winning bid of 50 and increment 1 the theorem
yields `nextMinBid = 51`. -/
theorem c3_next_min_bid_witness :
    nextMinBid c3ExState = 50 + minIncrement c3ExState := by
  exact (c3_next_min_bid c3ExState c3ExLot rfl).2 50 (by decide) rfl

/-- An open lot carrying a winning bid of 50, for the C2 scenario. -/
def c2ExLot : Lot :=
  { id := "lotA", status := .opened, team := none, winning_bid := some ⟨50⟩ }

/-- Overview for the C2 scenario: budget 200, `max_lots_per_participant`
2, `min_bid_increment` 1, an open current lot with winning bid 50. -/
def c2ExOverview : Overview :=
  { status := .active
    min_bid_increment := .num (.fin 1)
    max_lots_per_participant := 2
    lots := [c2ExLot]
    current_lot := some c2ExLot
    participants := [c1ExPart] }

/-- C2 scenario state: participant P (budget 200, no lots won) has
entered a bid of 200. -/
def c2ExState : ClientState :=
  { overview := some c2ExOverview
    viewMode := .participant
    selectedParticipantId := some "p1"
    bidAmount := some 200
    selectedTeamForNomination := none
    nominationParticipantId := none
    nominationBidAmount := none
    currentTime := 0
    titleIndex := 0 }

/-- C2: a bid is POSTed through the UI only when the current lot is
open, `nextMinBid ≤ amount ≤ smartMaxBid`, and the bidder holds fewer
than `max_lots_per_participant` lots; an entered amount outside the
bounds sends nothing; and in the documented scenario (budget 200, 0 lots
won, 2 slots, increment 1) the max bid is 199 and a bid of 200 is
rejected. -/
theorem c2_bid_submission_gate :
    (∀ (s : ClientState) (a : ℤ), submitBidViaUI s = some a →
      (∃ lot, currentLot s = some lot ∧ lot.status = LotStatus.opened) ∧
      nextMinBid s ≤ a ∧ a ≤ smartMaxBid s ∧
      draftedTeams s < requiredTeams s) ∧
    (∀ (s : ClientState) (q : ℚ), s.bidAmount = some q →
      (q < (nextMinBid s : ℚ) ∨ (smartMaxBid s : ℚ) < q) →
      submitBidViaUI s = none) ∧
    smartMaxBid c2ExState = 199 ∧ submitBidViaUI c2ExState = none := by
  have hsel : selectedParticipant c2ExState = some c1ExPart := by decide
  have hmin : minIncrement c2ExState = 1 := by
    show (if (1 : ℤ) ≤ ⌊(1 : ℚ)⌋ then ⌊(1 : ℚ)⌋ else 1) = 1
    norm_num
  have hsmart : smartMaxBid c2ExState = 199 := by
    rw [smartMaxBid_formula c2ExState c1ExPart hsel, hmin,
      show requiredTeams c2ExState = 2 from rfl,
      show c1ExPart.lots_won.length = 0 from rfl,
      show ⌊c1ExPart.budget⌋ = 200 by norm_num [c1ExPart]]
    decide
  refine ⟨?_, ?_, hsmart, ?_⟩
  · intro s a h
    rcases hcl : currentLot s with _ | lot
    · unfold submitBidViaUI at h
      simp [bidSectionShown, hcl] at h
    · unfold submitBidViaUI at h
      split at h
      case isFalse => simp at h
      case isTrue hgate =>
        simp only [Bool.and_eq_true] at hgate
        obtain ⟨⟨⟨hshown, hcb⟩, _htr⟩, _hval⟩ := hgate
        have hstatus : lot.status = LotStatus.opened := by
          simp only [bidSectionShown, hcl, Bool.and_eq_true, decide_eq_true_eq] at hshown
          exact hshown.2
        have hdr : draftedTeams s < requiredTeams s := by
          have hcb' := hcb
          simp only [canBid, Bool.and_eq_true, decide_eq_true_eq] at hcb'
          exact hcb'.1.1.2
        have hsp : (selectedParticipant s).isSome = true := by
          have hsh' := hshown
          simp only [bidSectionShown, Bool.and_eq_true] at hsh'
          exact hsh'.1.2
        have hbounds : nextMinBid s ≤ a ∧ a ≤ smartMaxBid s := by
          unfold onSubmitBid at h
          rcases hba : s.bidAmount with _ | q
          · simp only [hba] at h
            exact Option.noConfusion h
          · simp only [hba] at h
            have hc1 : (canBid s && (currentLot s).isSome && (selectedParticipant s).isSome) =
                true := by
              simp [hcb, hcl, hsp]
            simp only [hc1, if_true] at h
            split at h
            · exact absurd h (by simp)
            · rename_i hrange
              simp only [Bool.or_eq_true, decide_eq_true_eq, not_or, not_lt] at hrange
              obtain rfl : a = ⌊q⌋ := Option.some_inj.mp h.symm
              omega
        exact ⟨⟨lot, rfl, hstatus⟩, hbounds.1, hbounds.2, hdr⟩
  · intro s q hba hout
    have hval : bidIsValid s = false := by
      unfold bidIsValid
      rcases hout with hlow | hhigh
      · have h1 : ¬ ((nextMinBid s : ℚ) ≤ q) := not_le.mpr hlow
        simp [hba, h1]
      · have h1 : ¬ (q ≤ (smartMaxBid s : ℚ)) := not_le.mpr hhigh
        simp [hba, h1]
    unfold submitBidViaUI
    rw [hval]
    simp
  · have hval : bidIsValid c2ExState = false := by
      have h2 : ¬ ((200 : ℚ) ≤ (smartMaxBid c2ExState : ℚ)) := by
        rw [hsmart]
        norm_num
      unfold bidIsValid
      simp [show c2ExState.bidAmount = some 200 from rfl, h2]
    unfold submitBidViaUI
    rw [hval]
    simp

/-- State for the C2 witness: same scenario but with an in-range entered
bid of 150. -/
def c2WitState : ClientState :=
  { c2ExState with bidAmount := some 150 }

/-- C2 witness: the gate theorem applied to a concrete accepted bid of
150 (scenario state, bounds 51 ≤ 150 ≤ 199). -/
theorem c2_bid_submission_gate_witness :
    (∃ lot, currentLot c2WitState = some lot ∧ lot.status = LotStatus.opened) ∧
    nextMinBid c2WitState ≤ 150 ∧ (150 : ℤ) ≤ smartMaxBid c2WitState ∧
    draftedTeams c2WitState < requiredTeams c2WitState := by
  refine c2_bid_submission_gate.1 c2WitState 150 ?_
  have hsel : selectedParticipant c2WitState = some c1ExPart := by decide
  have hmin : minIncrement c2WitState = 1 := by
    show (if (1 : ℤ) ≤ ⌊(1 : ℚ)⌋ then ⌊(1 : ℚ)⌋ else 1) = 1
    norm_num
  have hnext : nextMinBid c2WitState = 51 := by
    rw [nextMinBid_of_winning c2WitState c2ExLot ⟨50⟩ rfl rfl (by norm_num), hmin]
    norm_num
  have hsmart : smartMaxBid c2WitState = 199 := by
    rw [smartMaxBid_formula c2WitState c1ExPart hsel, hmin,
      show requiredTeams c2WitState = 2 from rfl,
      show c1ExPart.lots_won.length = 0 from rfl,
      show ⌊c1ExPart.budget⌋ = 200 by norm_num [c1ExPart]]
    decide
  have hcb : canBid c2WitState = true := by
    unfold canBid
    rw [hnext, hsmart]
    decide
  have hval : bidIsValid c2WitState = true := by
    unfold bidIsValid
    rw [show c2WitState.bidAmount = some 150 from rfl, hcb, hnext, hsmart]
    simp only [Bool.true_and, Bool.and_eq_true, decide_eq_true_eq]
    refine ⟨⟨by decide, ?_⟩, ?_⟩ <;> norm_num
  have hshown : bidSectionShown c2WitState = true := by decide
  unfold submitBidViaUI onSubmitBid
  have h150 : ⌊(150 : ℚ)⌋ = (150 : ℤ) := by norm_num
  simp only [hshown, hcb, hval, show c2WitState.bidAmount = some (150 : ℚ) from rfl,
    show truthyAmount (some (150 : ℚ)) = true from by decide,
    show (currentLot c2WitState).isSome = true from rfl,
    show (selectedParticipant c2WitState).isSome = true from by rw [hsel]; rfl,
    Bool.and_self, Bool.true_and, Bool.and_true, if_true, h150, hnext, hsmart]
  norm_num

/-- `submitNomination` (lines 231–280) as the amount it submits through
`submitBid` (a POST to `/api/bids`), or `none` when it returns with an
error toast: a missing team selection, participant, or amount, or a
floored amount below `minIncrement`. `Number.isInteger(Math.floor(x))`
is always true for a finite input, so that conjunct of the source check
is omitted. The source performs no comparison against the participant's
smart max bid. -/
def submitNomination (sel : Option String) (pid : Option String)
    (bid : Option ℚ) (inc : ℤ) : Option ℤ :=
  match sel, pid, bid with
  | some _, some _, some q =>
    let amount : ℤ := ⌊q⌋
    if amount < inc then none else some amount
  | _, _, _ => none

/-- Participant for the C4 counterexample: budget 5, one slot needed. -/
def c4ExPart : Participant :=
  { id := "p4", budget := 5, lots_won := [] }

/-- Overview for the C4 counterexample: one slot, increment 1, so the
participant's smart max bid is their full budget 5. -/
def c4ExOverview : Overview :=
  { status := .active
    min_bid_increment := .num (.fin 1)
    max_lots_per_participant := 1
    lots := []
    current_lot := none
    participants := [c4ExPart] }

/-- C4 counterexample state: the nomination dialog holds lot `lotX`,
participant `p4`, and an opening bid of 100 against a smart max of 5. -/
def c4ExState : ClientState :=
  { overview := some c4ExOverview
    viewMode := .participant
    selectedParticipantId := some "p4"
    bidAmount := none
    selectedTeamForNomination := some "lotX"
    nominationParticipantId := some "p4"
    nominationBidAmount := some 100
    currentTime := 0
    titleIndex := 0 }

/-- C4 counterexample: the nominating participant's smart max bid is 5,
yet the opening bid of 100 is submitted rather than rejected; a
non-integer amount 15/2 is likewise floored to 7 and submitted rather
than rejected. -/
theorem c4_nomination_gate_cex :
    smartMaxBid c4ExState = 5 ∧
    submitNomination c4ExState.selectedTeamForNomination
      c4ExState.nominationParticipantId c4ExState.nominationBidAmount
      (minIncrement c4ExState) = some 100 ∧
    submitNomination (some "lotX") (some "p4") (some (15 / 2 : ℚ))
      (minIncrement c4ExState) = some 7 := by
  have hsel : selectedParticipant c4ExState = some c4ExPart := by decide
  have hmin : minIncrement c4ExState = 1 := by
    show (if (1 : ℤ) ≤ ⌊(1 : ℚ)⌋ then ⌊(1 : ℚ)⌋ else 1) = 1
    norm_num
  refine ⟨?_, ?_, ?_⟩
  · rw [smartMaxBid_formula c4ExState c4ExPart hsel, hmin,
      show requiredTeams c4ExState = 1 from rfl,
      show c4ExPart.lots_won.length = 0 from rfl,
      show ⌊c4ExPart.budget⌋ = 5 by norm_num [c4ExPart]]
    decide
  · simp only [show c4ExState.selectedTeamForNomination = some "lotX" from rfl,
      show c4ExState.nominationParticipantId = some "p4" from rfl,
      show c4ExState.nominationBidAmount = some (100 : ℚ) from rfl,
      submitNomination, hmin]
    rw [show ⌊(100 : ℚ)⌋ = (100 : ℤ) by norm_num]
    norm_num
  · simp only [submitNomination, hmin]
    rw [show ⌊(15 / 2 : ℚ)⌋ = (7 : ℤ) by norm_num]
    norm_num

/-- C4 (amended): a nomination is submitted exactly when the team
selection, participant, and amount are all present and the floored
amount is at least `minIncrement`; the submitted value is the floor of
the entered amount, with no client-side check against the participant's
smart max bid. -/
theorem c4_nomination_gate_amended (sel pid : Option String) (bid : Option ℚ)
    (inc : ℤ) (a : ℤ) :
    submitNomination sel pid bid inc = some a ↔
      (sel.isSome ∧ pid.isSome ∧ ∃ q : ℚ, bid = some q ∧ a = ⌊q⌋ ∧ inc ≤ a) := by
  cases sel <;> cases pid <;> cases bid <;>
    simp only [submitNomination, Option.isSome_none, Option.isSome_some] <;>
    simp
  rename_i q
  constructor
  · rintro ⟨h1, rfl⟩
    exact ⟨rfl, h1⟩
  · rintro ⟨rfl, h1⟩
    exact ⟨h1, rfl⟩

/-- `readyLots` computed (lines 443–445): lots of the overview whose
status is `'ready'`. -/
def readyLots (s : ClientState) : List Lot :=
  (lotsOf s).filter (fun l => decide (l.status = LotStatus.ready))

/-- The `team` argument passed to `handleTeamNomination` from the
auction table (a team row with optional `team_id` and `logo_url`). -/
structure TeamClick where
  team_id : Option String
  logo_url : Option String
deriving DecidableEq, Repr

/-- `handleTeamNomination` (lines 204–229) as the ready lot it selects
for the nomination dialog, or `none` when it shows the "not available
for nomination" error toast and changes nothing. Matching is by
`team_id` when present, else by `logo_url`. -/
def handleTeamNomination (s : ClientState) (team : TeamClick) : Option Lot :=
  match team.team_id with
  | some tid =>
    (readyLots s).find? (fun l => decide (l.team.bind TeamInfo.id = some tid))
  | none =>
    (readyLots s).find? (fun l => decide (l.team.bind TeamInfo.logo_url = team.logo_url))

/-- `anyParticipantCanNominate` computed (lines 478–480). -/
def anyParticipantCanNominate (s : ClientState) : Bool :=
  (participants s).any (fun p => decide (0 < remainingSlots s p))

/-- The `showNominateButton` prop of the auction table (template lines
1516–1521). -/
def showNominateButton (s : ClientState) : Bool :=
  decide (auctionStatus s = some AuctionStatus.active) &&
  (match currentLot s with
   | none => true
   | some l => decide (l.status = LotStatus.closed)) &&
  anyParticipantCanNominate s &&
  !(decide (s.viewMode = ViewMode.participant) &&
    decide (requiredTeams s ≤ draftedTeams s))

/-- C5: a team is selectable for nomination only with a ready lot (no
ready lot ⇒ error and no selection), and the nominate button is offered
only while the auction is active and the current lot is absent or
closed. -/
theorem c5_nomination_eligibility :
    (∀ (s : ClientState) (team : TeamClick) (lot : Lot),
      handleTeamNomination s team = some lot →
      lot.status = LotStatus.ready ∧ lot ∈ lotsOf s) ∧
    (∀ (s : ClientState) (team : TeamClick),
      (∀ l ∈ lotsOf s, l.status ≠ LotStatus.ready) →
      handleTeamNomination s team = none) ∧
    (∀ s : ClientState, showNominateButton s = true →
      auctionStatus s = some AuctionStatus.active ∧
      (currentLot s = none ∨
        ∃ l, currentLot s = some l ∧ l.status = LotStatus.closed)) := by
  refine ⟨?_, ?_, ?_⟩
  · intro s team lot h
    have hmem : lot ∈ readyLots s := by
      unfold handleTeamNomination at h
      rcases htid : team.team_id with _ | tid <;> rw [htid] at h <;>
        exact List.mem_of_find?_eq_some h
    have := List.mem_filter.mp hmem
    exact ⟨by simpa using this.2, this.1⟩
  · intro s team hnone
    have hempty : readyLots s = [] := by
      unfold readyLots
      rw [List.filter_eq_nil_iff]
      intro l hl
      simpa using hnone l hl
    unfold handleTeamNomination
    rcases htid : team.team_id with _ | tid <;> simp [hempty]
  · intro s h
    unfold showNominateButton at h
    simp only [Bool.and_eq_true, decide_eq_true_eq] at h
    obtain ⟨⟨⟨hactive, hlot⟩, _⟩, _⟩ := h
    refine ⟨hactive, ?_⟩
    rcases hcl : currentLot s with _ | l
    · exact Or.inl rfl
    · rw [hcl] at hlot
      simp only [decide_eq_true_eq] at hlot
      exact Or.inr ⟨l, rfl, hlot⟩

/-- Ready lot with a team id, for the C5 witness. -/
def c5ExLot : Lot :=
  { id := "lotR"
    status := .ready
    team := some { id := some "t1", logo_url := some "u1" }
    winning_bid := none }

/-- C5 witness state: active auction, no current lot, one ready lot,
one participant with open slots. -/
def c5ExState : ClientState :=
  { overview := some
      { status := .active
        min_bid_increment := .num (.fin 1)
        max_lots_per_participant := 2
        lots := [c5ExLot]
        current_lot := none
        participants := [c1ExPart] }
    viewMode := .spectator
    selectedParticipantId := none
    bidAmount := none
    selectedTeamForNomination := none
    nominationParticipantId := none
    nominationBidAmount := none
    currentTime := 0
    titleIndex := 0 }

/-- C5 witness: the theorem applied to the concrete ready-lot state,
both for a successful team selection and for the nominate button. -/
theorem c5_nomination_eligibility_witness :
    (c5ExLot.status = LotStatus.ready ∧ c5ExLot ∈ lotsOf c5ExState) ∧
    (auctionStatus c5ExState = some AuctionStatus.active ∧
      (currentLot c5ExState = none ∨
        ∃ l, currentLot c5ExState = some l ∧ l.status = LotStatus.closed)) := by
  refine ⟨?_, ?_⟩
  · exact c5_nomination_eligibility.1 c5ExState ⟨some "t1", none⟩ c5ExLot (by decide)
  · exact c5_nomination_eligibility.2.2 c5ExState (by decide)

/-- State of the `useAuctionEvents` composable that `handleEvent`
touches: the event list (newest first) and the latest event. -/
structure EventsState (E : Type) where
  events : List E
  latestEvent : Option E
deriving DecidableEq, Repr

/-- `handleEvent` of `useAuctionEvents` (the SSE message handler):
`JSON.parse` failure (`parsed = none`) is swallowed and nothing changes;
otherwise the event is stored as `latestEvent`, unshifted onto the
front of `events`, and one entry is popped from the end when the length
exceeds 50. -/
def handleEvent {E : Type} (parsed : Option E) (s : EventsState E) : EventsState E :=
  match parsed with
  | none => s
  | some e =>
    let l := e :: s.events
    { latestEvent := some e
      events := if 50 < l.length then l.dropLast else l }

/-- A pre-state holding 55 events, as the history backfill can install
(it replaces the list with all historical events, uncapped). -/
def c8CexPre : EventsState ℕ :=
  { events := List.replicate 55 0, latestEvent := none }

/-- C8 counterexample: invoked on a 55-element list, the handler returns
a 55-element list — more than 50 entries remain after it returns. -/
theorem c8_handle_event_cex :
    (handleEvent (some 7) c8CexPre).events.length = 55 ∧
    ¬ ((handleEvent (some 7) c8CexPre).events.length ≤ 50) := by
  decide

/-- C8 (amended): invalid JSON leaves the state unchanged; otherwise the
event becomes `latestEvent` and is prepended (newest first), the length
grows by one only when the result stays within 50 and otherwise one
entry is dropped from the end leaving the length unchanged; hence the
list holds at most 50 entries afterwards whenever it did before (a
longer backfilled list keeps its length). -/
theorem c8_handle_event_amended (E : Type) (e : E) (s : EventsState E) :
    handleEvent (none : Option E) s = s ∧
    (handleEvent (some e) s).latestEvent = some e ∧
    (handleEvent (some e) s).events.head? = some e ∧
    (handleEvent (some e) s).events.length =
      (if 50 < s.events.length + 1 then s.events.length else s.events.length + 1) ∧
    (s.events.length ≤ 50 → (handleEvent (some e) s).events.length ≤ 50) := by
  have hlen : (handleEvent (some e) s).events.length =
      (if 50 < s.events.length + 1 then s.events.length else s.events.length + 1) := by
    unfold handleEvent
    simp only [List.length_cons]
    split
    · simp [List.length_dropLast]
    · simp
  refine ⟨rfl, rfl, ?_, hlen, ?_⟩
  · unfold handleEvent
    simp only [List.length_cons]
    split
    · rename_i hgt
      rcases hev : s.events with _ | ⟨b, l⟩
      · rw [hev] at hgt
        simp at hgt
      · rfl
    · rfl
  · intro h
    rw [hlen]
    split <;> omega

/-- C8 witness: the amended theorem applied to a 3-element list keeps
the cap. -/
theorem c8_handle_event_amended_witness :
    (handleEvent (some 1) (⟨[9, 8, 7], none⟩ : EventsState ℕ)).events.length ≤ 50 :=
  (c8_handle_event_amended ℕ 1 ⟨[9, 8, 7], none⟩).2.2.2.2 (by decide)

/-- The `watch(currentLot)` handler (lines 659–675): with a current lot
it nulls the pending bid when `nextMinBid > smartMaxBid`, else resets an
out-of-range non-null amount to `nextMinBid`; with no current lot it
nulls the pending bid. -/
def clampOnLotChange (s : ClientState) : ClientState :=
  match currentLot s with
  | some _ =>
    let mn := nextMinBid s
    let mx := smartMaxBid s
    if mx < mn then { s with bidAmount := none }
    else
      match s.bidAmount with
      | none => s
      | some b =>
        { s with bidAmount := some (if b < (mn : ℚ) ∨ (mx : ℚ) < b then (mn : ℚ) else b) }
  | none => { s with bidAmount := none }

/-- The `watch([selectedParticipant, smartMaxBid, nextMinBid])` handler
(lines 677–686): it returns immediately when there is no current lot,
else nulls on an empty range and resets an out-of-range non-null amount
to `nextMinBid`. -/
def clampOnDepsChange (s : ClientState) : ClientState :=
  match currentLot s with
  | none => s
  | some _ =>
    let mn := nextMinBid s
    let mx := smartMaxBid s
    if mx < mn then { s with bidAmount := none }
    else
      match s.bidAmount with
      | some b =>
        if b < (mn : ℚ) ∨ (mx : ℚ) < b then { s with bidAmount := some (mn : ℚ) } else s
      | none => s

/-- The postcondition the claim asserts after a watcher run: the
pending amount is `null` whenever there is no current lot or the range
is empty, and any non-null amount lies in
`[nextMinBid, smartMaxBid]`. -/
def clampInv (s : ClientState) : Prop :=
  ((currentLot s = none ∨ smartMaxBid s < nextMinBid s) → s.bidAmount = none) ∧
  (∀ b : ℚ, s.bidAmount = some b →
    (nextMinBid s : ℚ) ≤ b ∧ b ≤ (smartMaxBid s : ℚ))

/-- C9 counterexample state: no overview (hence no current lot) but a
stale pending amount of 7. -/
def c9CexState : ClientState :=
  { overview := none
    viewMode := .participant
    selectedParticipantId := none
    bidAmount := some 7
    selectedTeamForNomination := none
    nominationParticipantId := none
    nominationBidAmount := none
    currentTime := 0
    titleIndex := 0 }

/-- C9 counterexample: the dependency watcher returns early when there
is no current lot, so after it runs the pending amount is still `some 7`
instead of `null`. -/
theorem c9_clamp_cex :
    currentLot c9CexState = none ∧
    (clampOnDepsChange c9CexState).bidAmount = some 7 := by
  exact ⟨rfl, rfl⟩

/-- C9 (amended): the current-lot watcher always establishes the clamp
postcondition; the dependency watcher establishes it whenever a current
lot is present, and also whenever the pre-state already had a null
amount in the no-lot case (which the current-lot watcher guarantees) —
with no current lot it leaves the amount unchanged. -/
theorem c9_clamp_amended (s : ClientState) :
    clampInv (clampOnLotChange s) ∧
    ((currentLot s).isSome → clampInv (clampOnDepsChange s)) ∧
    ((currentLot s = none → s.bidAmount = none) → clampInv (clampOnDepsChange s)) := by
  have hinv2 : (currentLot s).isSome = true → clampInv (clampOnDepsChange s) := by
    intro hsome
    unfold clampOnDepsChange
    split
    case h_1 heq =>
      rw [heq] at hsome
      exact absurd hsome (by simp)
    case h_2 lot heq =>
      split
      case h_1 b hba =>
        dsimp only
        split_ifs with hmx hout
        · exact ⟨fun _ => rfl, fun b' hb' => absurd hb' (by simp)⟩
        · have hle : nextMinBid s ≤ smartMaxBid s := not_lt.mp hmx
          refine ⟨fun hor => ?_, fun b' hb' => ?_⟩
          · rcases hor with h1 | h1
            · have h1' : currentLot s = none := h1
              rw [heq] at h1'
              exact Option.noConfusion h1'
            · have h1' : smartMaxBid s < nextMinBid s := h1
              exact absurd h1' hmx
          · have hb'' : (some ((nextMinBid s : ℚ)) : Option ℚ) = some b' := hb'
            obtain rfl := Option.some_inj.mp hb''
            exact ⟨le_refl _, by exact_mod_cast hle⟩
        · have hle : nextMinBid s ≤ smartMaxBid s := not_lt.mp hmx
          push_neg at hout
          refine ⟨fun hor => ?_, fun b' hb' => ?_⟩
          · rcases hor with h1 | h1
            · have h1' : currentLot s = none := h1
              rw [heq] at h1'
              exact Option.noConfusion h1'
            · have h1' : smartMaxBid s < nextMinBid s := h1
              exact absurd h1' hmx
          · have hb'' : s.bidAmount = some b' := hb'
            rw [hba] at hb''
            obtain rfl := Option.some_inj.mp hb''
            exact ⟨hout.1, hout.2⟩
      case h_2 hba =>
        dsimp only
        split_ifs with hmx
        · exact ⟨fun _ => rfl, fun b' hb' => absurd hb' (by simp)⟩
        · refine ⟨fun _ => hba, fun b' hb' => ?_⟩
          have hb'' : s.bidAmount = some b' := hb'
          rw [hba] at hb''
          exact Option.noConfusion hb''
  refine ⟨?_, hinv2, ?_⟩
  · unfold clampOnLotChange
    split
    case h_2 heq =>
      exact ⟨fun _ => rfl, fun b hb => absurd hb (by simp)⟩
    case h_1 lot heq =>
      split
      case h_1 hba =>
        dsimp only
        split_ifs with hmx
        · exact ⟨fun _ => rfl, fun b' hb' => absurd hb' (by simp)⟩
        · refine ⟨fun _ => hba, fun b' hb' => ?_⟩
          have hb'' : s.bidAmount = some b' := hb'
          rw [hba] at hb''
          exact Option.noConfusion hb''
      case h_2 b hba =>
        dsimp only
        split_ifs with hmx hout
        · exact ⟨fun _ => rfl, fun b' hb' => absurd hb' (by simp)⟩
        · have hle : nextMinBid s ≤ smartMaxBid s := not_lt.mp hmx
          refine ⟨fun hor => ?_, fun b' hb' => ?_⟩
          · rcases hor with h1 | h1
            · have h1' : currentLot s = none := h1
              rw [heq] at h1'
              exact Option.noConfusion h1'
            · have h1' : smartMaxBid s < nextMinBid s := h1
              exact absurd h1' hmx
          · have hb'' : (some ((nextMinBid s : ℚ)) : Option ℚ) = some b' := hb'
            obtain rfl := Option.some_inj.mp hb''
            exact ⟨le_refl _, by exact_mod_cast hle⟩
        · have hle : nextMinBid s ≤ smartMaxBid s := not_lt.mp hmx
          push_neg at hout
          refine ⟨fun hor => ?_, fun b' hb' => ?_⟩
          · rcases hor with h1 | h1
            · have h1' : currentLot s = none := h1
              rw [heq] at h1'
              exact Option.noConfusion h1'
            · have h1' : smartMaxBid s < nextMinBid s := h1
              exact absurd h1' hmx
          · have hb'' : (some b : Option ℚ) = some b' := hb'
            obtain rfl := Option.some_inj.mp hb''
            exact ⟨hout.1, hout.2⟩
  · intro hpre
    rcases hcl : currentLot s with _ | lot
    · have hres : clampOnDepsChange s = s := by
        unfold clampOnDepsChange
        rw [hcl]
      rw [hres]
      have hnone := hpre hcl
      refine ⟨fun _ => hnone, fun b hb => ?_⟩
      rw [hnone] at hb
      exact Option.noConfusion hb
    · exact hinv2 (by rw [hcl]; rfl)

/-- C9 witness: both clamp watchers applied to the concrete scenario
state (open lot, bounds 51..199, pending 150). -/
theorem c9_clamp_amended_witness :
    clampInv (clampOnLotChange c2WitState) ∧
    clampInv (clampOnDepsChange c2WitState) :=
  ⟨(c9_clamp_amended c2WitState).1,
   (c9_clamp_amended c2WitState).2.1 (by decide)⟩

/-- One step of the `onMounted` sequence (lines 767–791) followed by the
live deliveries, over an abstract event type. -/
inductive MountStep (E : Type) where
  | fetchOverview
  | installHistory (backfill : List E)
  | setCurrentTime
  | fetchAuctionData
  | openEventSource
  | deliverLive (e : E)
deriving DecidableEq, Repr

/-- Modelled from the spec: the backend event store and SSE endpoint are
not under `src/`. Per §4.5/§6, a late subscriber receives the ordered
history first and then live events with no gap or duplication, so the
backfill returned by `GET /events/history` is the log up to the
subscription point `f`. -/
def backfillEvents {E : Type} (log : List E) (f : ℕ) : List E := log.take f

/-- Modelled from the spec: the live SSE deliveries, the events
committed from the subscription point on. -/
def liveEvents {E : Type} (log : List E) (f : ℕ) : List E := log.drop f

/-- The `onMounted` sequence of the overview page: await the overview
fetch, await the history fetch and install it as the event list, set
the timer base, optionally fetch valuation data, and only when the
auction is active open the EventSource — after which the live events
arrive. -/
def mountTrace {E : Type} (log : List E) (f : ℕ) (active hasData : Bool) :
    List (MountStep E) :=
  [MountStep.fetchOverview, MountStep.installHistory (backfillEvents log f),
    MountStep.setCurrentTime]
  ++ (if hasData then [MountStep.fetchAuctionData] else [])
  ++ (if active then
        MountStep.openEventSource :: (liveEvents log f).map MountStep.deliverLive
      else [])

/-- C6: in the mount trace every live delivery comes strictly after the
backfill has been installed as the event list, and the backfill and the
live deliveries partition the event log — no event is missed and none is
duplicated across the boundary. -/
theorem c6_backfill_before_live (E : Type) :
    (∀ (log : List E) (f : ℕ) (active hasData : Bool) (e : E) (j : ℕ),
      (mountTrace log f active hasData).get? j = some (MountStep.deliverLive e) →
      (mountTrace log f active hasData).get? 1 =
        some (MountStep.installHistory (backfillEvents log f)) ∧ 1 < j) ∧
    (∀ (log : List E) (f : ℕ),
      backfillEvents log f ++ liveEvents log f = log) := by
  constructor
  · intro log f active hasData e j h
    refine ⟨rfl, ?_⟩
    match j with
    | 0 =>
      rw [show (mountTrace log f active hasData).get? 0 =
        some MountStep.fetchOverview from rfl] at h
      exact MountStep.noConfusion (Option.some_inj.mp h)
    | 1 =>
      rw [show (mountTrace log f active hasData).get? 1 =
        some (MountStep.installHistory (backfillEvents log f)) from rfl] at h
      exact MountStep.noConfusion (Option.some_inj.mp h)
    | (n + 2) => omega
  · intro log f
    exact List.take_append_drop f log

/-- Concrete three-event log for the C6 witness. -/
def c6WitLog : List ℕ := [10, 20, 30]

/-- C6 witness: in the concrete mounted trace (backfill point 2, active
auction), the live delivery of event 30 at position 4 is preceded by the
history installation at position 1, and backfill ++ live = log. -/
theorem c6_backfill_before_live_witness :
    ((mountTrace c6WitLog 2 true false).get? 1 =
      some (MountStep.installHistory (backfillEvents c6WitLog 2)) ∧ 1 < 4) ∧
    backfillEvents c6WitLog 2 ++ liveEvents c6WitLog 2 = c6WitLog :=
  ⟨(c6_backfill_before_live ℕ).1 c6WitLog 2 true false 30 4 (by decide),
   (c6_backfill_before_live ℕ).2 c6WitLog 2⟩

/-- A request the overview page sends to the backend. -/
inductive ApiRequest where
  | postBid (lotId : String) (participantId : String) (amount : ℤ)
  | patchLotStatus (lotId : String) (st : LotStatus)
  | patchAuctionStatus (st : AuctionStatus)
deriving DecidableEq, Repr

/-- The client-side actions of the overview page that can change state
or reach the backend: the 1-second timer tick (lines 788–790), the
5-second title rotation (783–785), the bid submit click, the nomination
confirm, the close-lot confirmation (lines 282–341, a PATCH setting the
lot status to closed), and the start/complete confirmations (via
`quickTransition`, PATCHing the auction status). -/
inductive ClientAction where
  | timerTick (now : ℤ)
  | titleTick
  | submitBidClick
  | nominateConfirm
  | closeLotConfirm
  | startAuctionConfirm
  | completeAuctionConfirm
deriving DecidableEq, Repr

/-- `titleOptions` (lines 76–80) always holds three entries. -/
def numTitleOptions : ℕ := 3

/-- One client action: the state it leaves and the request it sends;
each branch is translated from the handler named in `ClientAction`. -/
def clientStep (a : ClientAction) (s : ClientState) :
    ClientState × Option ApiRequest :=
  match a with
  | .timerTick now => ({ s with currentTime := now }, none)
  | .titleTick =>
    ({ s with titleIndex := (s.titleIndex + 1) % numTitleOptions }, none)
  | .submitBidClick =>
    (s, match submitBidViaUI s, currentLot s, selectedParticipant s with
        | some amt, some l, some p => some (.postBid l.id p.id amt)
        | _, _, _ => none)
  | .nominateConfirm =>
    (s, match submitNomination s.selectedTeamForNomination
          s.nominationParticipantId s.nominationBidAmount (minIncrement s),
        s.selectedTeamForNomination, s.nominationParticipantId with
        | some amt, some lotId, some pid => some (.postBid lotId pid amt)
        | _, _, _ => none)
  | .closeLotConfirm =>
    (s, match currentLot s with
        | some l => some (.patchLotStatus l.id LotStatus.closed)
        | none => none)
  | .startAuctionConfirm => (s, some (.patchAuctionStatus AuctionStatus.active))
  | .completeAuctionConfirm =>
    (s, some (.patchAuctionStatus AuctionStatus.completed))

/-- C7: a timer tick updates only the displayed current time and sends
no request — in particular the lot state is untouched — and a
lot-status PATCH arises from no action other than the explicit close
confirmation. -/
theorem c7_timer_never_closes :
    (∀ (s : ClientState) (now : ℤ),
      clientStep (ClientAction.timerTick now) s =
        ({ s with currentTime := now }, none)) ∧
    (∀ (s : ClientState) (now : ℤ),
      (clientStep (ClientAction.timerTick now) s).1.overview = s.overview ∧
      (clientStep (ClientAction.timerTick now) s).1.bidAmount = s.bidAmount ∧
      (clientStep (ClientAction.timerTick now) s).1.viewMode = s.viewMode ∧
      (clientStep (ClientAction.timerTick now) s).1.currentTime = now) ∧
    (∀ (a : ClientAction) (s : ClientState) (lotId : String) (st : LotStatus),
      (clientStep a s).2 = some (ApiRequest.patchLotStatus lotId st) →
      a = ClientAction.closeLotConfirm) := by
  refine ⟨fun s now => rfl, fun s now => ⟨rfl, rfl, rfl, rfl⟩, ?_⟩
  intro a s lotId st h
  cases a with
  | timerTick now => exact absurd h (by simp [clientStep])
  | titleTick => exact absurd h (by simp [clientStep])
  | submitBidClick =>
    exfalso
    unfold clientStep at h
    rcases h1 : submitBidViaUI s with _ | amt <;>
      rcases h2 : currentLot s with _ | l <;>
        rcases h3 : selectedParticipant s with _ | p <;>
          simp [h1, h2, h3] at h
  | nominateConfirm =>
    exfalso
    unfold clientStep at h
    rcases h1 : submitNomination s.selectedTeamForNomination
        s.nominationParticipantId s.nominationBidAmount (minIncrement s) with _ | amt <;>
      rcases h2 : s.selectedTeamForNomination with _ | lid <;>
        rcases h3 : s.nominationParticipantId with _ | pid <;>
          rw [h2, h3] at h1 <;> simp [h1, h2, h3] at h
  | closeLotConfirm => rfl
  | startAuctionConfirm => exact absurd h (by simp [clientStep])
  | completeAuctionConfirm => exact absurd h (by simp [clientStep])

/-- C7 witness: the theorem applied to a concrete tick and to the
concrete close confirmation on the scenario state with an open lot. -/
theorem c7_timer_never_closes_witness :
    clientStep (ClientAction.timerTick 5) c5ExState =
      ({ c5ExState with currentTime := 5 }, none) ∧
    ClientAction.closeLotConfirm = ClientAction.closeLotConfirm :=
  ⟨c7_timer_never_closes.1 c5ExState 5,
   c7_timer_never_closes.2.2 ClientAction.closeLotConfirm c2WitState "lotA"
     LotStatus.closed (by decide)⟩

/-- C10: for every `min_bid_increment` field value — including missing,
non-numeric, zero, or negative — the computed minimum increment is an
integer ≥ 1: the floor of the configured value when that floor is finite
and at least 1, and the fallback 1 otherwise. -/
theorem c10_min_increment_total (v : JsVal) :
    1 ≤ minIncrementJs v ∧
    (∀ q : ℚ, v.toNumber = JsNum.fin q → 1 ≤ ⌊q⌋ → minIncrementJs v = ⌊q⌋) ∧
    (∀ q : ℚ, v.toNumber = JsNum.fin q → ⌊q⌋ < 1 → minIncrementJs v = 1) ∧
    (v.toNumber.isFinite = false → minIncrementJs v = 1) := by
  refine ⟨?_, ?_, ?_, ?_⟩
  · unfold minIncrementJs
    rcases h : v.toNumber with q | _ | _ | _ <;> simp
    split <;> omega
  · intro q hq h1
    simp [minIncrementJs, hq, h1]
  · intro q hq h1
    simp [minIncrementJs, hq]
    omega
  · intro hfin
    unfold minIncrementJs
    rcases h : v.toNumber with q | _ | _ | _ <;> simp_all [JsNum.isFinite]

/-- C10 witness: the theorem applied at a numeric field `5/2` (floor 2)
and at a missing field. -/
theorem c10_min_increment_total_witness :
    minIncrementJs (JsVal.num (JsNum.fin (5 / 2 : ℚ))) = ⌊(5 / 2 : ℚ)⌋ ∧
    minIncrementJs JsVal.undef = 1 := by
  constructor
  · exact (c10_min_increment_total (JsVal.num (JsNum.fin (5 / 2 : ℚ)))).2.1
      (5 / 2 : ℚ) rfl (by norm_num)
  · exact (c10_min_increment_total JsVal.undef).2.2.2 rfl

end NbaWinsPool
